import Mathlib

/-!
# Verification of the DiscordPepperPL matching/deduplication core

Shallow embedding of the algorithmic core of the DiscordPepperPL bot:

* the price normalizer `AlertsManager._parse_price` (src/utils/alerts.py),
* the alert matching engine `AlertsManager.check_alerts` (src/utils/alerts.py)
  together with the dedup ledger operations of `Database` (src/utils/db.py),
* the schedule evaluator `CategoryManager.should_run_now` and the config
  validator `CategoryManager.parse_schedule` (src/utils/category_manager.py).

Python strings are modelled as `List Char`; Python floats are modelled as
rationals (`ℚ`), which is faithful for the parsing and order comparisons the
code performs; database tables are modelled as lists of rows with the
`INSERT OR IGNORE` write path made explicit.
-/

/-! ## Python string primitives (modelled on `List Char`) -/

/-- Model of Python `str.lower()` restricted to the alphabet that occurs in
price strings: ASCII letters plus the Polish `Ł`.  (CPython lowercases the
full Unicode range; the inputs handled by `_parse_price` only need this
fragment.) -/
def pyLower (s : List Char) : List Char :=
  s.map fun c => if c = 'Ł' then 'ł' else c.toLower

/-- One fuel step of `replaceAll`; fuel bounds the recursion so the
definition is structural (and hence kernel-reducible). -/
def replaceAllAux (pat rep : List Char) : Nat → List Char → List Char
  | 0, s => s
  | _, [] => []
  | fuel + 1, c :: rest =>
    if pat.isPrefixOf (c :: rest) ∧ pat ≠ [] then
      rep ++ replaceAllAux pat rep fuel ((c :: rest).drop pat.length)
    else
      c :: replaceAllAux pat rep fuel rest

/-- Model of Python `str.replace(pat, rep)`: replace every (leftmost,
non-overlapping) occurrence of `pat` by `rep`.  For the empty pattern the
model returns the string unchanged (the code never replaces an empty
pattern). -/
def replaceAll (pat rep s : List Char) : List Char :=
  replaceAllAux pat rep s.length s

/-- Model of the Python substring test `pat in s`. -/
def containsSub (pat : List Char) : List Char → Bool
  | [] => pat.isPrefixOf []
  | c :: rest => pat.isPrefixOf (c :: rest) || containsSub pat rest

/-- Numeric value of a list of decimal digit characters. -/
def digitsVal (s : List Char) : Nat :=
  s.foldl (fun acc c => 10 * acc + (c.toNat - '0'.toNat)) 0

/-- Model of Python `float(s)` on the fragment the cleaned price strings live
in: an optional sign followed by decimal digits with at most one point and at
least one digit.  Returns `none` where CPython raises `ValueError`.  (CPython
additionally accepts exponents, `inf`/`nan`, underscore separators and
surrounding whitespace; no cleaned price string takes those forms.) -/
def pyFloat? (s : List Char) : Option ℚ :=
  let (neg, t) : Bool × List Char :=
    match s with
    | '-' :: t => (true, t)
    | '+' :: t => (false, t)
    | t => (false, t)
  let intPart := t.takeWhile Char.isDigit
  let rest := t.drop intPart.length
  let build (ip frac : List Char) : ℚ :=
    let mag : Nat := digitsVal ip * 10 ^ frac.length + digitsVal frac
    mkRat (if neg then -(mag : Int) else (mag : Int)) (10 ^ frac.length)
  match rest with
  | [] =>
    if intPart = [] then none else some (build intPart [])
  | '.' :: frac =>
    if frac.all Char.isDigit ∧ (intPart ≠ [] ∨ frac ≠ []) then
      some (build intPart frac)
    else none
  | _ => none

/-! ## Price normalizer (`AlertsManager._parse_price`, src/utils/alerts.py) -/

/-- The cleaning pipeline of `_parse_price`:
`price_str.lower().replace("zł", "").replace(" ", "").replace(",", ".")`. -/
def cleanPrice (s : List Char) : List Char :=
  replaceAll [','] ['.'] (replaceAll [' '] [] (replaceAll ['z', 'ł'] [] (pyLower s)))

/-- The free-token test of `_parse_price`:
`"darm" in clean or "free" in clean or "bezpłatn" in clean`. -/
def hasFreeToken (clean : List Char) : Bool :=
  containsSub ['d', 'a', 'r', 'm'] clean ||
    containsSub ['f', 'r', 'e', 'e'] clean ||
      containsSub ['b', 'e', 'z', 'p', 'ł', 'a', 't', 'n'] clean

/-- `AlertsManager._parse_price` (src/utils/alerts.py, lines 87–99).
`none` models Python `None`; the empty list models `""` (both are falsy, so
both hit the `if not price_str` early return).  A `ValueError` from
`float` is caught and turned into `0.0`, modelled by `Option.getD 0`. -/
def _parse_price (price_str : Option (List Char)) : ℚ :=
  match price_str with
  | none => 0
  | some s =>
    if s = [] then 0
    else
      let clean := cleanPrice s
      if hasFreeToken clean then 0
      else (pyFloat? clean).getD 0

/-! ## Dedup ledger and alert matching engine
(`Database` in src/utils/db.py, `AlertsManager.check_alerts` in
src/utils/alerts.py) -/

/-- A dedup key: an `(alert_id, deal_id)` pair, the primary key of the
`alert_history` table (src/utils/db.py, lines 35–43). -/
abbrev Key := Int × List Char

/-- A row of the `alerts` table as returned by `get_alerts_by_query`
(src/utils/db.py, lines 162–168): the fields `check_alerts` reads. -/
structure Subscriber where
  id : Int
  user_id : Int
  max_price : Option ℚ
  deriving DecidableEq

/-- A deal as returned by the scraper: the fields `check_alerts` reads
(`deal["link"]`, `deal["price"]`). -/
structure Deal where
  link : List Char
  price : Option (List Char)
  deriving DecidableEq

/-- The result of `scraper.search_deals` (spec §6): a success flag and a
list of deals. -/
structure FetchResult where
  success : Bool
  deals : List Deal

/-- The read-only world one `check_alerts` cycle consults: the distinct
queries (`get_all_unique_queries`), the scraper, and the subscribers per
query (`get_alerts_by_query`). -/
structure Env where
  queries : List (List Char)
  fetch : List Char → FetchResult
  subs : List Char → List Subscriber

/-- A notification dict as built by `check_alerts` (src/utils/alerts.py,
lines 69–73). -/
structure Notification where
  user_id : Int
  deal : Deal
  query : List Char
  deriving DecidableEq

/-- `Database.is_deal_seen_by_alert` (src/utils/db.py, lines 170–176) over a
ledger modelled as the list of rows of `alert_history`. -/
def is_deal_seen_by_alert (ledger : List Key) (k : Key) : Bool :=
  ledger.contains k

/-- `INSERT OR IGNORE` of one row into a table with primary key `Key`. -/
def insertIgnore (l : List Key) (k : Key) : List Key :=
  if k ∈ l then l else l ++ [k]

/-- `Database.mark_deals_seen_batch` (src/utils/db.py, lines 186–202):
idempotent bulk `INSERT OR IGNORE` of the staged keys. -/
def mark_deals_seen_batch (ledger : List Key) (records : List Key) : List Key :=
  records.foldl insertIgnore ledger

/-- The mutable state accumulated during one `check_alerts` cycle:
`notifications`, `batch_seen` and `seen_in_cycle` (src/utils/alerts.py,
lines 31–33).  `seen_in_cycle` is a Python `set`, modelled as a
duplicate-free list extended by `insertIgnore`-style appends. -/
structure CycleState where
  notifications : List Notification
  batch_seen : List Key
  seen_in_cycle : List Key

/-- The price filter of `check_alerts` (src/utils/alerts.py, line 66):
`max_price is None or deal_price <= max_price`. -/
def priceOk (sub : Subscriber) (deal_price : ℚ) : Bool :=
  match sub.max_price with
  | none => true
  | some mp => decide (deal_price ≤ mp)

/-- The body of the innermost `for sub in subscribers` loop of
`check_alerts` (src/utils/alerts.py, lines 53–75). -/
def processSub (ledger : List Key) (query : List Char) (deal : Deal)
    (deal_price : ℚ) (st : CycleState) (sub : Subscriber) : CycleState :=
  let key : Key := (sub.id, deal.link)
  if key ∈ st.seen_in_cycle then st
  else if is_deal_seen_by_alert ledger key then
    { st with seen_in_cycle := st.seen_in_cycle ++ [key] }
  else
    if priceOk sub deal_price then
      { notifications := st.notifications ++ [⟨sub.user_id, deal, query⟩],
        batch_seen := st.batch_seen ++ [key],
        seen_in_cycle := st.seen_in_cycle ++ [key] }
    else st

/-- The body of the `for deal in result["deals"]` loop of `check_alerts`
(src/utils/alerts.py, lines 49–75): parse the price once, then fold over the
subscribers. -/
def processDeal (ledger : List Key) (query : List Char) (subscribers : List Subscriber)
    (st : CycleState) (deal : Deal) : CycleState :=
  let deal_price := _parse_price deal.price
  subscribers.foldl (processSub ledger query deal deal_price) st

/-- The body of the `for query in unique_queries` loop of `check_alerts`
(src/utils/alerts.py, lines 38–78): skip failed fetches and queries with no
subscribers, otherwise fold over the fetched deals.  (The politeness sleep
has no effect on the computed state.) -/
def processQuery (env : Env) (ledger : List Key) (st : CycleState)
    (query : List Char) : CycleState :=
  let result := env.fetch query
  if !result.success then st
  else
    let subscribers := env.subs query
    if subscribers.isEmpty then st
    else result.deals.foldl (processDeal ledger query subscribers) st

/-- The full in-cycle computation of `check_alerts`: fold the query loop
over the initial empty state. -/
def runCycle (env : Env) (ledger : List Key) : CycleState :=
  env.queries.foldl (processQuery env ledger) ⟨[], [], []⟩

/-- `AlertsManager.check_alerts` (src/utils/alerts.py, lines 26–85): returns
the notifications of the cycle and the durable ledger after the final
`mark_deals_seen_batch` flush.  (When `batch_seen` is empty the flush is
skipped by the code and is a no-op here.) -/
def check_alerts (env : Env) (ledger : List Key) : List Notification × List Key :=
  let st := runCycle env ledger
  (st.notifications, mark_deals_seen_batch ledger st.batch_seen)

/-- Repeated cycles threading the durable ledger: the ledger after running
`check_alerts` once per environment in the list. -/
def runLedger : List Key → List Env → List Key
  | ledger, [] => ledger
  | ledger, e :: es => runLedger (check_alerts e ledger).2 es

/-- The keys staged (and hence notified) cycle by cycle over a sequence of
`check_alerts` runs, concatenated in order. -/
def runEmitted : List Key → List Env → List Key
  | _, [] => []
  | ledger, e :: es =>
    (runCycle e ledger).batch_seen ++ runEmitted (check_alerts e ledger).2 es

/-! ## Cycle invariants -/

/-- The invariant maintained while a cycle runs: staged keys are
duplicate-free, absent from the durable ledger, and cached; every cached key
was found durably seen or staged; one notification per staged key. -/
structure GoodState (ledger : List Key) (st : CycleState) : Prop where
  nodup : st.batch_seen.Nodup
  fresh : ∀ k ∈ st.batch_seen, k ∉ ledger
  staged_cached : ∀ k ∈ st.batch_seen, k ∈ st.seen_in_cycle
  cached_resolved : ∀ k ∈ st.seen_in_cycle, k ∈ ledger ∨ k ∈ st.batch_seen
  counts : st.notifications.length = st.batch_seen.length

theorem goodState_init (ledger : List Key) : GoodState ledger ⟨[], [], []⟩ := by
  constructor <;> simp

theorem mem_insertIgnore {l : List Key} {k a : Key} :
    a ∈ insertIgnore l k ↔ a ∈ l ∨ a = k := by
  unfold insertIgnore
  split
  · constructor
    · exact fun h => Or.inl h
    · rintro (h | rfl) <;> assumption
  · simp

theorem mem_mark_deals_seen_batch {records : List Key} :
    ∀ {ledger : List Key} {k : Key},
      k ∈ mark_deals_seen_batch ledger records ↔ k ∈ ledger ∨ k ∈ records := by
  induction records with
  | nil => simp [mark_deals_seen_batch]
  | cons a t ih =>
    intro ledger k
    simp only [mark_deals_seen_batch, List.foldl_cons] at *
    rw [ih]
    simp [mem_insertIgnore, or_assoc, or_comm (a := k = a)]

/-- Generic preservation of a predicate along `List.foldl`, where the step
only needs to preserve it for members of the list. -/
theorem foldl_mem_invariant {σ α : Type _} {f : σ → α → σ} {P : σ → Prop}
    (l : List α) (st : σ) (hstep : ∀ s a, a ∈ l → P s → P (f s a)) (hst : P st) :
    P (l.foldl f st) := by
  induction l generalizing st with
  | nil => exact hst
  | cons a t ih =>
    simp only [List.foldl_cons]
    exact ih (f st a) (fun s b hb => hstep s b (List.mem_cons_of_mem _ hb))
      (hstep st a (List.mem_cons_self _ _) hst)

/-- Generic reachability along `List.foldl`: if processing `a` establishes
`Q` from any state and every step preserves `Q`, then folding a list
containing `a` establishes `Q`. -/
theorem foldl_mem_reach {σ α : Type _} {f : σ → α → σ} {Q : σ → Prop}
    (l : List α) (a : α) (ha : a ∈ l)
    (hmono : ∀ s b, Q s → Q (f s b))
    (hhit : ∀ s, Q (f s a)) :
    ∀ st, Q (l.foldl f st) := by
  induction l with
  | nil => cases ha
  | cons b t ih =>
    intro st
    simp only [List.foldl_cons]
    rcases List.mem_cons.1 ha with h | h
    · subst h
      exact foldl_mem_invariant t (f st a) (fun s c _ => hmono s c) (hhit st)
    · exact ih h (f st b)

theorem processSub_good {ledger : List Key} {query : List Char} {deal : Deal}
    {p : ℚ} {st : CycleState} {sub : Subscriber} (h : GoodState ledger st) :
    GoodState ledger (processSub ledger query deal p st sub) := by
  simp only [processSub]
  by_cases h1 : (sub.id, deal.link) ∈ st.seen_in_cycle
  · simpa [h1] using h
  · simp only [h1, if_false]
    by_cases h2 : is_deal_seen_by_alert ledger (sub.id, deal.link) = true
    · simp only [h2, if_true]
      refine ⟨h.nodup, h.fresh, ?_, ?_, h.counts⟩
      · exact fun k hk => List.mem_append_left _ (h.staged_cached k hk)
      · intro k hk
        rcases List.mem_append.1 hk with hk | hk
        · exact h.cached_resolved k hk
        · rcases List.mem_singleton.1 hk with rfl
          exact Or.inl (by simpa [is_deal_seen_by_alert] using h2)
    · simp only [h2, if_false]
      by_cases h3 : priceOk sub p = true
      · simp only [h3, if_true]
        refine ⟨?_, ?_, ?_, ?_, ?_⟩
        · refine List.Nodup.append h.nodup (List.nodup_singleton _) ?_
          intro k hk hk'
          rcases List.mem_singleton.1 hk' with rfl
          exact h1 (h.staged_cached _ hk)
        · intro k hk
          rcases List.mem_append.1 hk with hk | hk
          · exact h.fresh k hk
          · rcases List.mem_singleton.1 hk with rfl
            simpa [is_deal_seen_by_alert] using h2
        · intro k hk
          rcases List.mem_append.1 hk with hk | hk
          · exact List.mem_append_left _ (h.staged_cached k hk)
          · exact List.mem_append_right _ hk
        · intro k hk
          rcases List.mem_append.1 hk with hk | hk
          · rcases h.cached_resolved k hk with h' | h'
            · exact Or.inl h'
            · exact Or.inr (List.mem_append_left _ h')
          · exact Or.inr (List.mem_append_right _ hk)
        · simp [h.counts]
      · simpa [h3] using h

theorem processSub_cache_mono {ledger : List Key} {query : List Char} {deal : Deal}
    {p : ℚ} {st : CycleState} {sub : Subscriber} {k : Key} (hk : k ∈ st.seen_in_cycle) :
    k ∈ (processSub ledger query deal p st sub).seen_in_cycle := by
  simp only [processSub]
  by_cases h1 : (sub.id, deal.link) ∈ st.seen_in_cycle
  · simpa [h1] using hk
  · simp only [h1, if_false]
    by_cases h2 : is_deal_seen_by_alert ledger (sub.id, deal.link) = true
    · simp only [h2, if_true]
      exact List.mem_append_left _ hk
    · simp only [h2, if_false]
      by_cases h3 : priceOk sub p = true
      · simp only [h3, if_true]
        exact List.mem_append_left _ hk
      · simpa [h3] using hk

theorem processSub_hits {ledger : List Key} {query : List Char} {deal : Deal}
    {p : ℚ} {st : CycleState} {sub : Subscriber} (hp : priceOk sub p = true) :
    (sub.id, deal.link) ∈ (processSub ledger query deal p st sub).seen_in_cycle := by
  simp only [processSub]
  by_cases h1 : (sub.id, deal.link) ∈ st.seen_in_cycle
  · simp [h1]
  · simp only [h1, if_false]
    by_cases h2 : is_deal_seen_by_alert ledger (sub.id, deal.link) = true
    · simp only [h2, if_true]
      exact List.mem_append_right _ (List.mem_singleton_self _)
    · simp only [h2, if_false, hp, if_true]
      exact List.mem_append_right _ (List.mem_singleton_self _)

theorem processDeal_good {ledger : List Key} {query : List Char}
    {subscribers : List Subscriber} {st : CycleState} {deal : Deal}
    (h : GoodState ledger st) :
    GoodState ledger (processDeal ledger query subscribers st deal) :=
  foldl_mem_invariant _ _ (fun _ _ _ hs => processSub_good hs) h

theorem processDeal_cache_mono {ledger : List Key} {query : List Char}
    {subscribers : List Subscriber} {st : CycleState} {deal : Deal} {k : Key}
    (hk : k ∈ st.seen_in_cycle) :
    k ∈ (processDeal ledger query subscribers st deal).seen_in_cycle :=
  foldl_mem_invariant (P := fun s : CycleState => k ∈ s.seen_in_cycle) _ _
    (fun _ _ _ hs => processSub_cache_mono hs) hk

theorem processQuery_good {env : Env} {ledger : List Key} {st : CycleState}
    {query : List Char} (h : GoodState ledger st) :
    GoodState ledger (processQuery env ledger st query) := by
  simp only [processQuery]
  split
  · exact h
  · split
    · exact h
    · exact foldl_mem_invariant _ _ (fun _ _ _ hs => processDeal_good hs) h

theorem processQuery_cache_mono {env : Env} {ledger : List Key} {st : CycleState}
    {query : List Char} {k : Key} (hk : k ∈ st.seen_in_cycle) :
    k ∈ (processQuery env ledger st query).seen_in_cycle := by
  simp only [processQuery]
  split
  · exact hk
  · split
    · exact hk
    · exact foldl_mem_invariant (P := fun s : CycleState => k ∈ s.seen_in_cycle) _ _
        (fun _ _ _ hs => processDeal_cache_mono hs) hk

theorem runCycle_good (env : Env) (ledger : List Key) :
    GoodState ledger (runCycle env ledger) :=
  foldl_mem_invariant _ _ (fun _ _ _ hs => processQuery_good hs) (goodState_init ledger)

/-- A ledger has resolved an environment when every price-passing
`(alert_id, deal_id)` pair reachable in a cycle over that environment is
already recorded. -/
def Resolved (env : Env) (ledger : List Key) : Prop :=
  ∀ q ∈ env.queries, (env.fetch q).success = true →
    ∀ d ∈ (env.fetch q).deals, ∀ sub ∈ env.subs q,
      priceOk sub (_parse_price d.price) = true → (sub.id, d.link) ∈ ledger

theorem runCycle_cache_complete {env : Env} {ledger : List Key}
    {q : List Char} (hq : q ∈ env.queries) (hs : (env.fetch q).success = true)
    {d : Deal} (hd : d ∈ (env.fetch q).deals)
    {sub : Subscriber} (hsub : sub ∈ env.subs q)
    (hp : priceOk sub (_parse_price d.price) = true) :
    (sub.id, d.link) ∈ (runCycle env ledger).seen_in_cycle := by
  refine foldl_mem_reach (Q := fun s : CycleState => (sub.id, d.link) ∈ s.seen_in_cycle)
    env.queries q hq (fun s b h => processQuery_cache_mono h) ?_ _
  intro s
  have hne : (env.subs q).isEmpty = false := by
    cases hsubs : env.subs q with
    | nil => rw [hsubs] at hsub; cases hsub
    | cons a t => simp
  simp only [processQuery, hs, Bool.not_true, if_false, hne, Bool.false_eq_true]
  refine foldl_mem_reach (Q := fun s : CycleState => (sub.id, d.link) ∈ s.seen_in_cycle)
    (env.fetch q).deals d hd (fun s b h => processDeal_cache_mono h) ?_ _
  intro s
  simp only [processDeal]
  exact foldl_mem_reach (f := processSub ledger q d (_parse_price d.price))
    (Q := fun s2 : CycleState => (sub.id, d.link) ∈ s2.seen_in_cycle)
    (env.subs q) sub hsub (fun s2 b h => processSub_cache_mono h)
    (fun s2 => processSub_hits hp) s

theorem check_alerts_resolves (env : Env) (ledger : List Key) :
    Resolved env (check_alerts env ledger).2 := by
  intro q hq hs d hd sub hsub hp
  have hcache := @runCycle_cache_complete env ledger q hq hs d hd sub hsub hp
  have hgood := runCycle_good env ledger
  rcases hgood.cached_resolved _ hcache with h | h
  · exact mem_mark_deals_seen_batch.2 (Or.inl h)
  · exact mem_mark_deals_seen_batch.2 (Or.inr h)

theorem processSub_frozen {ledger : List Key} {query : List Char} {deal : Deal}
    {p : ℚ} {st : CycleState} {sub : Subscriber}
    (hres : priceOk sub p = true → (sub.id, deal.link) ∈ ledger) :
    (processSub ledger query deal p st sub).notifications = st.notifications := by
  simp only [processSub]
  by_cases h1 : (sub.id, deal.link) ∈ st.seen_in_cycle
  · simp [h1]
  · simp only [h1, if_false]
    by_cases h2 : is_deal_seen_by_alert ledger (sub.id, deal.link) = true
    · simp [h2]
    · simp only [h2, if_false]
      by_cases h3 : priceOk sub p = true
      · exact absurd (by simpa [is_deal_seen_by_alert] using hres h3) (by simpa [is_deal_seen_by_alert] using h2)
      · simp [h3]

theorem processQuery_frozen {env : Env} {ledger : List Key} {st : CycleState}
    {q : List Char}
    (hres : (env.fetch q).success = true →
      ∀ d ∈ (env.fetch q).deals, ∀ sub ∈ env.subs q,
        priceOk sub (_parse_price d.price) = true → (sub.id, d.link) ∈ ledger) :
    (processQuery env ledger st q).notifications = st.notifications := by
  simp only [processQuery]
  by_cases hs : (env.fetch q).success = true
  · simp only [hs, Bool.not_true, if_false]
    by_cases hne : (env.subs q).isEmpty = true
    · simp [hne]
    · simp only [hne, if_false]
      refine foldl_mem_invariant (P := fun s : CycleState => s.notifications = st.notifications)
        _ _ ?_ rfl
      intro s d hd hfrozen
      rw [← hfrozen]
      simp only [processDeal]
      refine foldl_mem_invariant (P := fun s2 : CycleState => s2.notifications = s.notifications)
        _ _ ?_ rfl
      intro s2 sub hsub hfrozen2
      rw [← hfrozen2]
      exact processSub_frozen (hres hs d hd sub hsub)
  · simp [hs]

theorem runCycle_notifications_of_resolved {env : Env} {ledger : List Key}
    (h : Resolved env ledger) :
    (runCycle env ledger).notifications = [] := by
  refine foldl_mem_invariant (P := fun s : CycleState => s.notifications = []) _ _ ?_ rfl
  intro s q hq hfrozen
  rw [processQuery_frozen (h q hq)]
  exact hfrozen

theorem mem_runLedger {k : Key} :
    ∀ {envs : List Env} {ledger : List Key}, k ∈ ledger → k ∈ runLedger ledger envs := by
  intro envs
  induction envs with
  | nil => exact fun hk => hk
  | cons e es ih =>
    intro ledger hk
    exact ih (mem_mark_deals_seen_batch.2 (Or.inl hk))

theorem runEmitted_fresh {k : Key} :
    ∀ {envs : List Env} {ledger : List Key}, k ∈ runEmitted ledger envs → k ∉ ledger := by
  intro envs
  induction envs with
  | nil => intro ledger hk; cases hk
  | cons e es ih =>
    intro ledger hk
    rcases List.mem_append.1 hk with hk | hk
    · exact (runCycle_good e ledger).fresh k hk
    · intro hmem
      exact ih hk (mem_mark_deals_seen_batch.2 (Or.inl hmem))

theorem runEmitted_nodup :
    ∀ (envs : List Env) (ledger : List Key), (runEmitted ledger envs).Nodup := by
  intro envs
  induction envs with
  | nil => intro ledger; simp [runEmitted]
  | cons e es ih =>
    intro ledger
    refine List.Nodup.append ((runCycle_good e ledger).nodup) (ih _) ?_
    intro k hk hk'
    have hdurable : k ∈ (check_alerts e ledger).2 :=
      mem_mark_deals_seen_batch.2 (Or.inr hk)
    exact runEmitted_fresh hk' hdurable

theorem runEmitted_durable {k : Key} :
    ∀ {envs : List Env} {ledger : List Key},
      k ∈ runEmitted ledger envs → k ∈ runLedger ledger envs := by
  intro envs
  induction envs with
  | nil => intro ledger hk; cases hk
  | cons e es ih =>
    intro ledger hk
    rcases List.mem_append.1 hk with hk | hk
    · show k ∈ runLedger (check_alerts e ledger).2 es
      exact mem_runLedger (mem_mark_deals_seen_batch.2 (Or.inr hk))
    · exact ih hk

/-! ## Claim theorems for the alert matching engine -/

/-- **C1.** For every sequence of alert-matching cycles run against the
ledger, no `(alert_id, deal_id)` pair is ever notified twice: the keys
staged across any sequence of cycles are globally duplicate-free, none of
them was already in the initial ledger, each of them is durably recorded in
the final ledger, and within a cycle notifications and staged keys are in
one-to-one correspondence. -/
theorem C1_no_duplicate_notifications :
    ∀ (ledger : List Key) (envs : List Env),
      (runEmitted ledger envs).Nodup
      ∧ (∀ k ∈ runEmitted ledger envs, k ∉ ledger)
      ∧ (∀ k ∈ runEmitted ledger envs, k ∈ runLedger ledger envs)
      ∧ ∀ env : Env, (runCycle env ledger).notifications.length
          = (runCycle env ledger).batch_seen.length := by
  intro ledger envs
  exact ⟨runEmitted_nodup envs ledger,
    fun k hk => runEmitted_fresh hk,
    fun k hk => runEmitted_durable hk,
    fun env => (runCycle_good env ledger).counts⟩

/-- **C2.** Running `check_alerts` a second time on the ledger produced by a
first run over the same environment (same queries, same fetch results, same
subscribers) emits no notifications. -/
theorem C2_second_run_is_empty (env : Env) (ledger : List Key) :
    (check_alerts env (check_alerts env ledger).2).1 = [] := by
  have h := check_alerts_resolves env ledger
  simpa [check_alerts] using runCycle_notifications_of_resolved h

/-- **C3.** Two watches on the same query with `w1.max_price < w2.max_price`
and a previously unseen deal priced strictly between them: one cycle
notifies `w2`'s owner and nobody else; and in general a single watch is
notified of an unseen deal iff its price filter
(`max_price` absent or `normalized_price ≤ max_price`) passes. -/
theorem C3_price_threshold_selectivity :
    (∀ (q : List Char) (d : Deal) (w1 w2 : Subscriber) (m1 m2 : ℚ) (ledger : List Key),
      w1.max_price = some m1 → w2.max_price = some m2 → m1 < m2 →
      (w1.id, d.link) ∉ ledger → (w2.id, d.link) ∉ ledger →
      m1 < _parse_price d.price → _parse_price d.price ≤ m2 →
      (check_alerts ⟨[q], fun _ => ⟨true, [d]⟩, fun _ => [w1, w2]⟩ ledger).1
        = [⟨w2.user_id, d, q⟩])
    ∧ ∀ (q : List Char) (d : Deal) (w : Subscriber) (ledger : List Key),
        (w.id, d.link) ∉ ledger →
        (check_alerts ⟨[q], fun _ => ⟨true, [d]⟩, fun _ => [w]⟩ ledger).1
          = if priceOk w (_parse_price d.price) = true then [⟨w.user_id, d, q⟩] else [] := by
  constructor
  · intro q d w1 w2 m1 m2 ledger hw1 hw2 _hm hl1 hl2 hp1 hp2
    simp [check_alerts, runCycle, processQuery, processDeal, processSub, priceOk,
      is_deal_seen_by_alert, hw1, hw2, hl1, hl2, not_le.2 hp1, hp2]
  · intro q d w ledger hl
    by_cases hp : priceOk w (_parse_price d.price) = true <;>
      simp [check_alerts, runCycle, processQuery, processDeal, processSub,
        is_deal_seen_by_alert, hl, hp]

/-- A deal fetched for the query `laptop`, priced `1999 zł`. -/
def dealEx : Deal := ⟨"https://pepper.pl/d1".data, some "1999 zł".data⟩

/-- A watch with alert id 1, owner 42 and price ceiling 2000. -/
def watchEx : Subscriber := ⟨1, 42, some 2000⟩

/-- A tight watch with alert id 7, owner 10 and price ceiling 1000. -/
def watchTight : Subscriber := ⟨7, 10, some 1000⟩

/-- A one-query environment in which `dealEx` is always fetched and
`watchTight, watchEx` subscribe. -/
def envPair : Env :=
  ⟨["laptop".data], fun _ => ⟨true, [dealEx]⟩, fun _ => [watchTight, watchEx]⟩

/-- A one-query environment with `watchEx` as sole subscriber. -/
def envEx : Env := ⟨["laptop".data], fun _ => ⟨true, [dealEx]⟩, fun _ => [watchEx]⟩

/-- A one-query environment with `watchTight` as sole subscriber. -/
def envTight : Env := ⟨["laptop".data], fun _ => ⟨true, [dealEx]⟩, fun _ => [watchTight]⟩

theorem C3_price_threshold_selectivity_witness :
    (check_alerts envPair []).1 = [⟨watchEx.user_id, dealEx, "laptop".data⟩] :=
  C3_price_threshold_selectivity.1 "laptop".data dealEx watchTight watchEx 1000 2000 []
    rfl rfl (by decide) (by decide) (by decide) (by decide) (by decide)

theorem C1_no_duplicate_notifications_witness :
    ((1 : Int), "https://pepper.pl/d1".data) ∈ runLedger [] [envEx, envEx] := by
  have h := C1_no_duplicate_notifications [] [envEx, envEx]
  exact h.2.2.1 _ (by decide)

/-- **C10.** In one cycle a key is staged and cached exactly when a
notification was emitted for it or the durable ledger already held it
(staged keys are cached and fresh, cached keys are staged or durably seen,
notifications and staged keys are in one-to-one correspondence); and an
unseen deal that fails a watch's price filter produces no notification and
leaves the ledger untouched, so the pair is re-evaluated whenever the deal
reappears. -/
theorem C10_stage_exactly_on_emit :
    (∀ (env : Env) (ledger : List Key),
      (∀ k ∈ (runCycle env ledger).batch_seen, k ∈ (runCycle env ledger).seen_in_cycle)
      ∧ (∀ k ∈ (runCycle env ledger).seen_in_cycle,
          k ∈ ledger ∨ k ∈ (runCycle env ledger).batch_seen)
      ∧ (∀ k ∈ (runCycle env ledger).batch_seen, k ∉ ledger)
      ∧ (runCycle env ledger).notifications.length = (runCycle env ledger).batch_seen.length)
    ∧ ∀ (q : List Char) (d : Deal) (w : Subscriber) (ledger : List Key),
        (w.id, d.link) ∉ ledger → priceOk w (_parse_price d.price) = false →
        check_alerts ⟨[q], fun _ => ⟨true, [d]⟩, fun _ => [w]⟩ ledger = ([], ledger) := by
  constructor
  · intro env ledger
    have h := runCycle_good env ledger
    exact ⟨h.staged_cached, h.cached_resolved, h.fresh, h.counts⟩
  · intro q d w ledger hl hp
    simp [check_alerts, runCycle, processQuery, processDeal, processSub,
      is_deal_seen_by_alert, hl, hp, mark_deals_seen_batch]

theorem C10_stage_exactly_on_emit_witness :
    check_alerts envTight [] = ([], []) :=
  C10_stage_exactly_on_emit.2 "laptop".data dealEx watchTight []
    (by decide) (by decide)

/-- **C4.** The price normalizer is a total function (the Lean model never
raises by construction, matching the `try/except ValueError` in the code):
absent and empty input give `0`; `"29,99 zł"` gives `29.99`; a free token
forces `0` regardless of numeric content; a string that is neither free nor
parseable gives `0`; and in general a non-empty input is `0` when its
cleaned form holds a free token, and otherwise the parse result with `0` as
the fallback. -/
theorem C4_price_normalizer :
    _parse_price none = 0
    ∧ _parse_price (some "".data) = 0
    ∧ _parse_price (some "29,99 zł".data) = mkRat 2999 100
    ∧ _parse_price (some "Darmowa".data) = 0
    ∧ _parse_price (some "garbage".data) = 0
    ∧ _parse_price (some "Darmowa 19,99".data) = 0
    ∧ (∀ s : List Char, s ≠ [] → hasFreeToken (cleanPrice s) = true →
        _parse_price (some s) = 0)
    ∧ ∀ s : List Char, s ≠ [] → hasFreeToken (cleanPrice s) = false →
        _parse_price (some s) = (pyFloat? (cleanPrice s)).getD 0 := by
  refine ⟨by decide, by decide, by decide, by decide, by decide, by decide, ?_, ?_⟩
  · intro s hne hf
    simp [_parse_price, hne, hf]
  · intro s hne hf
    simp [_parse_price, hne, hf]

theorem C4_price_normalizer_witness :
    _parse_price (some "Darmowa 123".data) = 0 :=
  C4_price_normalizer.2.2.2.2.2.2.1 "Darmowa 123".data (by decide) (by decide)

/-! ## Schedule evaluator (`CategoryManager.should_run_now`,
src/utils/category_manager.py) -/

/-- The fields of a Python `datetime` instant that `should_run_now` reads.
`epochMicros` is the instant's position on the absolute timeline in
microseconds (used for `now - last_run` arithmetic); `hour`, `minute`,
`second`, `microsecond` are its wall-clock fields (used by
`now.replace(...)`); `weekday` is `datetime.weekday()` (Monday = 0) and
`monthday` is `datetime.day`. -/
structure PyDateTime where
  epochMicros : Int
  hour : Nat
  minute : Nat
  second : Nat
  microsecond : Nat
  weekday : Nat
  monthday : Nat
  deriving DecidableEq

/-- The stored `last_run` column composed with
`datetime.datetime.fromisoformat`: `absent` models a missing/falsy value,
`malformed` a truthy string on which `fromisoformat` raises
(`ValueError`/`TypeError`, swallowed by the code), `parsed t` a string that
parses to the instant `t`. -/
inductive LastRun where
  | absent
  | malformed
  | parsed (t : PyDateTime)
  deriving DecidableEq

/-- A row of `category_configs` as read by `should_run_now`
(src/utils/category_manager.py, lines 81–151). -/
structure Category where
  schedule_time : List Char
  schedule_type : List Char
  schedule_day : Option (List Char)
  schedule_date : Option Int
  last_run : LastRun
  status : List Char

/-- Model of Python `str.split(sep)` for a one-character separator. -/
def splitOnChar (sep : Char) : List Char → List (List Char)
  | [] => [[]]
  | c :: rest =>
    if c = sep then [] :: splitOnChar sep rest
    else
      match splitOnChar sep rest with
      | [] => [[c]]
      | t :: ts => (c :: t) :: ts

/-- Model of Python `int(s)` on strings: optional surrounding whitespace,
an optional sign, then at least one decimal digit; `none` where CPython
raises `ValueError`.  (CPython also accepts underscore separators between
digits; schedule strings never carry them.) -/
def pyInt? (s : List Char) : Option Int :=
  let ws (c : Char) : Bool := c = ' ' || c = '\t' || c = '\n' || c = '\r'
  let t := ((s.dropWhile ws).reverse.dropWhile ws).reverse
  match t with
  | '-' :: ds =>
    if ds ≠ [] ∧ ds.all Char.isDigit then some (-(digitsVal ds : Int)) else none
  | '+' :: ds =>
    if ds ≠ [] ∧ ds.all Char.isDigit then some ((digitsVal ds : Int)) else none
  | ds =>
    if ds ≠ [] ∧ ds.all Char.isDigit then some ((digitsVal ds : Int)) else none

/-- Lines 89–91 of src/utils/category_manager.py:
`schedule_time.split(':')` followed by `int(...)` on the first two parts;
`none` models the uncaught `IndexError`/`ValueError` on malformed input. -/
def parseHM (s : List Char) : Option (Int × Int) :=
  let parts := splitOnChar ':' s
  match parts[0]?, parts[1]? with
  | some p0, some p1 =>
    match pyInt? p0, pyInt? p1 with
    | some h, some m => some (h, m)
    | _, _ => none
  | _, _ => none

/-- `(now - now.replace(hour, minute, second=0, microsecond=0))` in
microseconds: the signed distance from today's scheduled time. -/
def driftMicros (now : PyDateTime) (h m : Int) : Int :=
  ((now.hour * 3600 + now.minute * 60 + now.second : Int) * 1000000 + now.microsecond)
    - (h * 3600 + m * 60) * 1000000

/-- The `day_map` dict of `should_run_now`
(src/utils/category_manager.py, lines 127–130). -/
def day_map (d : List Char) : Option Nat :=
  if d = "monday".data then some 0
  else if d = "tuesday".data then some 1
  else if d = "wednesday".data then some 2
  else if d = "thursday".data then some 3
  else if d = "friday".data then some 4
  else if d = "saturday".data then some 5
  else if d = "sunday".data then some 6
  else none

/-- The pure remainder of `should_run_now` once the schedule time has been
parsed and `now.replace` has succeeded (src/utils/category_manager.py,
lines 101–151): the 2-minute drift window, the 30-minute debounce, then the
frequency-specific gate.  All duration comparisons are carried out in
microseconds (`120 s = 120000000 µs`, `30 min = 1800000000 µs`,
`timedelta.days` is floor division by `86400000000 µs`). -/
def dueAfterParse (c : Category) (now : PyDateTime) (schedule_hour schedule_minute : Int) : Bool :=
  if ¬ ((driftMicros now schedule_hour schedule_minute).natAbs < 120000000) then false
  else if (match c.last_run with
           | .parsed lr => decide (now.epochMicros - lr.epochMicros < 1800000000)
           | _ => false) then false
  else if c.schedule_type = "daily".data then true
  else if c.schedule_type = "weekly".data ∨ c.schedule_type = "biweekly".data then
    match c.schedule_day.bind day_map with
    | none => false
    | some target_day =>
      if now.weekday ≠ target_day then false
      else if c.schedule_type = "biweekly".data then
        match c.last_run with
        | .parsed lr =>
          if (now.epochMicros - lr.epochMicros).fdiv 86400000000 < 13 then false else true
        | _ => true
      else true
  else if c.schedule_type = "monthly".data then
    match c.schedule_date with
    | some dt => decide ((now.monthday : Int) = dt)
    | none => false
  else false

/-- `CategoryManager.should_run_now` (src/utils/category_manager.py,
lines 81–151).  The two `Except.error` cases are the uncaught Python
exceptions: `IndexError`/`ValueError` from `split`/`int` on a malformed
`schedule_time`, and `ValueError` from `now.replace` when the parsed hour
or minute is out of range. -/
def should_run_now (c : Category) (now : PyDateTime) : Except Unit Bool :=
  match parseHM c.schedule_time with
  | none => Except.error ()
  | some (h, m) =>
    if h < 0 ∨ 23 < h ∨ m < 0 ∨ 59 < m then Except.error ()
    else Except.ok (dueAfterParse c now h m)

theorem shouldRun_ok_true {c : Category} {now : PyDateTime} {h m : Int}
    (hp : parseHM c.schedule_time = some (h, m))
    (hok : should_run_now c now = Except.ok true) :
    dueAfterParse c now h m = true := by
  have hok' : (if h < 0 ∨ 23 < h ∨ m < 0 ∨ 59 < m then (Except.error () : Except Unit Bool)
      else Except.ok (dueAfterParse c now h m)) = Except.ok true := by
    rw [← hok]
    unfold should_run_now
    rw [hp]
  split at hok'
  · cases hok'
  · simpa using hok'

/-- A daily job scheduled at `09:00` with no prior run. -/
def catDaily9 : Category := ⟨"09:00".data, "daily".data, none, none, .absent, "active".data⟩

/-- `09:01:00.000000` (epoch microseconds put the epoch at today's
midnight; weekday Monday, day of month 1). -/
def now0901 : PyDateTime := ⟨32460000000, 9, 1, 0, 0, 0, 1⟩

/-- `09:03:00.000000` of the same day. -/
def now0903 : PyDateTime := ⟨32580000000, 9, 3, 0, 0, 0, 1⟩

/-- A last run 31 minutes before `now0901`. -/
def lr31 : PyDateTime := ⟨32460000000 - 1860000000, 8, 30, 0, 0, 0, 1⟩

/-- `catDaily9` with a parsed last run 31 minutes old. -/
def catDaily9lr : Category :=
  ⟨"09:00".data, "daily".data, none, none, .parsed lr31, "active".data⟩

/-- **C5.** A job is reported due only when both gates pass: the absolute
distance between `now` and today's scheduled time is strictly below 2
minutes, and the last run (when present and parseable) is at least 30
minutes old.  Concretely, a daily `09:00` job is due at `09:01` (60 s
drift) and not due at `09:03` (180 s drift). -/
theorem C5_drift_and_debounce_gates :
    (∀ (c : Category) (now : PyDateTime) (h m : Int),
      parseHM c.schedule_time = some (h, m) →
      should_run_now c now = Except.ok true →
      (driftMicros now h m).natAbs < 120000000
      ∧ ∀ lr, c.last_run = .parsed lr → 1800000000 ≤ now.epochMicros - lr.epochMicros)
    ∧ should_run_now catDaily9 now0901 = Except.ok true
    ∧ should_run_now catDaily9 now0903 = Except.ok false := by
  refine ⟨?_, rfl, rfl⟩
  intro c now h m hp hok
  have hdue := shouldRun_ok_true hp hok
  unfold dueAfterParse at hdue
  split_ifs at hdue with h1 h2
  all_goals
    refine ⟨h1, fun lr hlr => ?_⟩
    rw [hlr] at h2
    simp only [decide_eq_true_eq] at h2
    omega

theorem C5_drift_and_debounce_gates_witness :
    (driftMicros now0901 9 0).natAbs < 120000000
    ∧ 1800000000 ≤ now0901.epochMicros - lr31.epochMicros := by
  have hgen := C5_drift_and_debounce_gates.1 catDaily9lr now0901 9 0 rfl rfl
  exact ⟨hgen.1, hgen.2 lr31 rfl⟩

/-- Monday `09:00:00`, 20 days after the model epoch (day of month 15). -/
def nowBi : PyDateTime := ⟨1760400000000, 9, 0, 0, 0, 0, 15⟩

/-- A last run 10 days before `nowBi`. -/
def lrBi10 : PyDateTime := ⟨1760400000000 - 864000000000, 9, 0, 0, 0, 4, 5⟩

/-- A last run 14 days before `nowBi`. -/
def lrBi14 : PyDateTime := ⟨1760400000000 - 1209600000000, 9, 0, 0, 0, 0, 1⟩

/-- A biweekly Monday `09:00` job last run 10 days ago. -/
def catBi10 : Category :=
  ⟨"09:00".data, "biweekly".data, some "monday".data, none, .parsed lrBi10, "active".data⟩

/-- A biweekly Monday `09:00` job last run 14 days ago. -/
def catBi14 : Category :=
  ⟨"09:00".data, "biweekly".data, some "monday".data, none, .parsed lrBi14, "active".data⟩

theorem shouldRun_ok_parse {c : Category} {now : PyDateTime} {b : Bool}
    (hok : should_run_now c now = Except.ok b) :
    ∃ p : Int × Int, parseHM c.schedule_time = some p := by
  cases hq : parseHM c.schedule_time with
  | none =>
    unfold should_run_now at hok
    simp only [hq] at hok
    cases hok
  | some p => exact ⟨p, rfl⟩

theorem dueAfterParse_weekday {c : Category} {now : PyDateTime} {h m : Int}
    (htype : c.schedule_type = "weekly".data ∨ c.schedule_type = "biweekly".data)
    (hdue : dueAfterParse c now h m = true) :
    c.schedule_day.bind day_map = some now.weekday := by
  have hnd : ¬ c.schedule_type = "daily".data := by
    intro hd
    rcases htype with ht | ht <;> rw [hd] at ht <;> exact absurd ht (by decide)
  unfold dueAfterParse at hdue
  rw [if_neg hnd, if_pos htype] at hdue
  split_ifs at hdue with h1 h2 h3
  · split at hdue
    · cases hdue
    · rename_i td heq
      split_ifs at hdue with h5
      rw [heq, not_ne_iff.1 h5]
  · split at hdue
    · cases hdue
    · rename_i td heq
      split_ifs at hdue with h5
      rw [heq, not_ne_iff.1 h5]

theorem dueAfterParse_biweekly_days {c : Category} {now : PyDateTime} {h m : Int}
    {lr : PyDateTime}
    (htype : c.schedule_type = "biweekly".data) (hlr : c.last_run = .parsed lr)
    (hdue : dueAfterParse c now h m = true) :
    13 ≤ (now.epochMicros - lr.epochMicros).fdiv 86400000000 := by
  have hnd : ¬ c.schedule_type = "daily".data := by
    intro hd
    rw [hd] at htype
    exact absurd htype (by decide)
  unfold dueAfterParse at hdue
  rw [if_neg hnd, if_pos (Or.inr htype), if_pos htype] at hdue
  simp only [hlr] at hdue
  split_ifs at hdue with h1 h2 h3
  · split at hdue
    · cases hdue
    · simp at hdue
  · exact not_lt.1 h3

/-- **C6.** After the drift and debounce gates, a weekly or biweekly job is
due only when `now`'s weekday equals the configured day, and a biweekly job
additionally only when at least 13 whole days have elapsed since a parsed
last run.  Concretely, a biweekly job last run 10 days ago on its weekday
is not due, and one last run 14 days ago is due. -/
theorem C6_weekly_biweekly_gates :
    (∀ (c : Category) (now : PyDateTime),
      (c.schedule_type = "weekly".data ∨ c.schedule_type = "biweekly".data) →
      should_run_now c now = Except.ok true →
      c.schedule_day.bind day_map = some now.weekday)
    ∧ (∀ (c : Category) (now : PyDateTime) (lr : PyDateTime),
        c.schedule_type = "biweekly".data → c.last_run = .parsed lr →
        should_run_now c now = Except.ok true →
        13 ≤ (now.epochMicros - lr.epochMicros).fdiv 86400000000)
    ∧ should_run_now catBi10 nowBi = Except.ok false
    ∧ should_run_now catBi14 nowBi = Except.ok true := by
  refine ⟨?_, ?_, rfl, rfl⟩
  · intro c now htype hok
    obtain ⟨⟨h, m⟩, hp⟩ := shouldRun_ok_parse hok
    exact dueAfterParse_weekday htype (shouldRun_ok_true hp hok)
  · intro c now lr htype hlr hok
    obtain ⟨⟨h, m⟩, hp⟩ := shouldRun_ok_parse hok
    exact dueAfterParse_biweekly_days htype hlr (shouldRun_ok_true hp hok)

theorem C6_weekly_biweekly_gates_witness :
    catBi14.schedule_day.bind day_map = some nowBi.weekday
    ∧ 13 ≤ (nowBi.epochMicros - lrBi14.epochMicros).fdiv 86400000000 :=
  ⟨C6_weekly_biweekly_gates.1 catBi14 nowBi (Or.inr rfl) rfl,
   C6_weekly_biweekly_gates.2.1 catBi14 nowBi lrBi14 rfl rfl rfl⟩

/-- `Database.get_active_categories_for_schedule` (src/utils/db.py,
lines 292–299): `SELECT * FROM category_configs WHERE status = 'active'`
(the `ORDER BY` clause does not affect membership and is not modelled). -/
def get_active_categories_for_schedule (cats : List Category) : List Category :=
  cats.filter fun c => decide (c.status = "active".data)

/-- Modelled from the spec: the per-minute scheduler tick lives in
`cogs/pepper.py`, which is not under `src/`.  Per spec §2 and §4.4
("evaluation only runs for `active` jobs") it evaluates `should_run_now` on
the rows returned by `get_active_categories_for_schedule` and fires exactly
the jobs judged due; a job whose evaluation faults fires nothing on this
tick (spec §7). -/
def scheduleTick (cats : List Category) (now : PyDateTime) : List Category :=
  (get_active_categories_for_schedule cats).filter fun c =>
    match should_run_now c now with
    | Except.ok b => b
    | Except.error _ => false

/-- **C7.** A paused job never fires: whatever its schedule fields,
last run and the current time, a job whose status is `paused` is never
among the jobs a tick evaluates as due. -/
theorem C7_paused_never_fires :
    ∀ (cats : List Category) (now : PyDateTime) (c : Category),
      c.status = "paused".data → c ∉ scheduleTick cats now := by
  intro cats now c hpaused hmem
  have h1 : c ∈ get_active_categories_for_schedule cats :=
    List.mem_of_mem_filter hmem
  simp only [get_active_categories_for_schedule] at h1
  have h2 := (List.mem_filter.1 h1).2
  rw [hpaused] at h2
  exact absurd (of_decide_eq_true h2) (by decide)

/-- `catDaily9` but paused. -/
def catPaused : Category := ⟨"09:00".data, "daily".data, none, none, .absent, "paused".data⟩

theorem C7_paused_never_fires_witness :
    catPaused ∉ scheduleTick [catPaused, catDaily9] now0901 :=
  C7_paused_never_fires [catPaused, catDaily9] now0901 catPaused rfl

/-- A job whose stored `schedule_time` is not of the `H:M` shape. -/
def catGarbageTime : Category :=
  ⟨"garbage".data, "daily".data, none, none, .absent, "active".data⟩

/-- **C8 counterexample.** The claim says evaluation never raises on
malformed schedule fields; but on a job whose `schedule_time` does not
split into two `int()`-parseable parts, `should_run_now` raises
(uncaught `IndexError`/`ValueError` from lines 89–91 of
src/utils/category_manager.py), modelled by `Except.error`. -/
theorem C8_counterexample_schedule_time_raises :
    should_run_now catGarbageTime now0901 = Except.error () := rfl

/-- **C8 (amended).** Malformed or missing `last_run` never makes the
evaluation raise: a `last_run` that fails to parse behaves exactly like an
absent one, and for any job whose `schedule_time` parses to an in-range
hour and minute the evaluation returns a boolean whatever `last_run`
holds.  (Malformed `schedule_time`, by contrast, raises — see the
counterexample.) -/
theorem C8_malformed_last_run_is_absent :
    (∀ (c : Category) (now : PyDateTime),
      should_run_now { c with last_run := .malformed } now
        = should_run_now { c with last_run := .absent } now)
    ∧ ∀ (c : Category) (now : PyDateTime) (h m : Int),
        parseHM c.schedule_time = some (h, m) →
        ¬(h < 0 ∨ 23 < h ∨ m < 0 ∨ 59 < m) →
        should_run_now c now = Except.ok (dueAfterParse c now h m) := by
  constructor
  · intro c now
    rfl
  · intro c now h m hp hr
    unfold should_run_now
    simp only [hp]
    rw [if_neg hr]

theorem C8_malformed_last_run_is_absent_witness :
    should_run_now catDaily9 now0901 = Except.ok (dueAfterParse catDaily9 now0901 9 0) :=
  C8_malformed_last_run_is_absent.2 catDaily9 now0901 9 0 rfl (by decide)

/-! ## Config validator (`CategoryManager.parse_schedule`,
src/utils/category_manager.py, lines 46–79) -/

/-- Bool test for a regex character range `[lo-hi]`: the char's code point
lies between the endpoints. -/
def inRange (lo hi c : Char) : Bool :=
  decide (lo.toNat ≤ c.toNat) && decide (c.toNat ≤ hi.toNat)

/-- Python `re`'s `$` also matches just before one newline that ends the
string: strip that newline if present. -/
def dropTrailingNewline (s : List Char) : List Char :=
  match s.reverse with
  | '\n' :: rest => rest.reverse
  | _ => s

/-- Model of `re.match(r'^([0-1]?[0-9]|2[0-3]):([0-5][0-9])$', time)`
(src/utils/category_manager.py, line 51) as a Bool: the hour is one digit
`[0-9]`, or `[0-1][0-9]`, or `2[0-3]`; the minute is `[0-5][0-9]`; `$`
tolerates a single trailing newline. -/
def matchesTimePattern (s : List Char) : Bool :=
  match dropTrailingNewline s with
  | [h1, c, m1, m2] =>
    decide (c = ':') && inRange '0' '9' h1
      && inRange '0' '5' m1 && inRange '0' '9' m2
  | [h1, h2, c, m1, m2] =>
    decide (c = ':')
      && (inRange '0' '1' h1 && inRange '0' '9' h2
          || inRange '2' '2' h1 && inRange '0' '3' h2)
      && inRange '0' '5' m1 && inRange '0' '9' m2
  | _ => false

/-- The spec's stated time rule: strict two-digit `HH:MM`, hour 00–23,
minute 00–59 (written numerically, from the spec's words). -/
def specStrictHHMM (s : List Char) : Bool :=
  match s with
  | [h1, h2, c, m1, m2] =>
    decide (c = ':') && inRange '0' '9' h1 && inRange '0' '9' h2
      && inRange '0' '9' m1 && inRange '0' '9' m2
      && decide ((h1.toNat - '0'.toNat) * 10 + (h2.toNat - '0'.toNat) ≤ 23)
      && decide ((m1.toNat - '0'.toNat) * 10 + (m2.toNat - '0'.toNat) ≤ 59)
  | _ => false

/-- The rule the code actually enforces, stated numerically (the amended
claim): after tolerating one trailing newline, a one- or two-digit hour of
value 0–23, a colon, and a strict two-digit minute of value 0–59. -/
def amendedTimeOk (s : List Char) : Bool :=
  match dropTrailingNewline s with
  | [h1, c, m1, m2] =>
    decide (c = ':') && inRange '0' '9' h1
      && inRange '0' '9' m1 && inRange '0' '9' m2
      && decide ((m1.toNat - '0'.toNat) * 10 + (m2.toNat - '0'.toNat) ≤ 59)
  | [h1, h2, c, m1, m2] =>
    decide (c = ':') && inRange '0' '9' h1 && inRange '0' '9' h2
      && inRange '0' '9' m1 && inRange '0' '9' m2
      && decide ((h1.toNat - '0'.toNat) * 10 + (h2.toNat - '0'.toNat) ≤ 23)
      && decide ((m1.toNat - '0'.toNat) * 10 + (m2.toNat - '0'.toNat) ≤ 59)
  | _ => false

/-- The seven weekday names accepted by `parse_schedule`. -/
def validDays : List (List Char) :=
  ["monday".data, "tuesday".data, "wednesday".data, "thursday".data,
   "friday".data, "saturday".data, "sunday".data]

/-- The schedule dict built by `parse_schedule`. -/
structure Schedule where
  type : List Char
  time : List Char
  day : Option (List Char)
  date : Option Int
  deriving DecidableEq

/-- `CategoryManager.parse_schedule` (src/utils/category_manager.py,
lines 46–79): returns `(ok, schedule, reason)`.  Python truthiness of `day`
(`None` or the empty string are falsy) and of `date` (`None` or `0` are
falsy) is modelled explicitly. -/
def parse_schedule (frequency time : List Char) (day : Option (List Char))
    (date : Option Int) : Bool × Option Schedule × Option (List Char) :=
  if matchesTimePattern time = false then
    (false, none, some "Time must be in HH:MM format (e.g., 09:00)".data)
  else
    let ftype := pyLower frequency
    let dayTruthy : Bool := match day with
      | some d => decide (d ≠ [])
      | none => false
    let schedule : Schedule :=
      ⟨ftype, time, if dayTruthy then day.map pyLower else none, date⟩
    if !(decide (ftype = "daily".data) || decide (ftype = "weekly".data)
          || decide (ftype = "biweekly".data) || decide (ftype = "monthly".data)) then
      (false, none, some "Frequency must be one of: daily, weekly, biweekly, monthly".data)
    else if (decide (ftype = "weekly".data) || decide (ftype = "biweekly".data))
        && !dayTruthy then
      (false, none, some (frequency ++ " requires a day (e.g., monday)".data))
    else if decide (ftype = "monthly".data) && (match date with
        | some dt => decide (dt = 0)
        | none => true) then
      (false, none, some "Monthly requires a date (1-31)".data)
    else if decide (ftype = "monthly".data) && (match date with
        | some dt => decide (dt < 1 ∨ 31 < dt)
        | none => false) then
      (false, none, some "Monthly date must be between 1-31".data)
    else if dayTruthy && (match day with
        | some d => decide (pyLower d ∉ validDays)
        | none => false) then
      (false, none,
        some "Day must be one of: monday, tuesday, wednesday, thursday, friday, saturday, sunday".data)
    else
      (true, some schedule, none)

theorem matchesTimePattern_eq_amendedTimeOk (s : List Char) :
    matchesTimePattern s = amendedTimeOk s := by
  unfold matchesTimePattern amendedTimeOk
  rcases dropTrailingNewline s with _ | ⟨a, _ | ⟨b, _ | ⟨c, _ | ⟨d, _ | ⟨e, _ | ⟨f, t⟩⟩⟩⟩⟩⟩
  · rfl
  · rfl
  · rfl
  · rfl
  · rw [Bool.eq_iff_iff]
    simp only [inRange, Bool.and_eq_true, Bool.or_eq_true, decide_eq_true_eq,
      show '0'.toNat = 48 from rfl, show '1'.toNat = 49 from rfl,
      show '2'.toNat = 50 from rfl, show '3'.toNat = 51 from rfl,
      show '5'.toNat = 53 from rfl, show '9'.toNat = 57 from rfl, and_assoc]
    constructor <;> intro h <;> obtain ⟨hc, h⟩ := h <;> exact ⟨hc, by omega⟩
  · rw [Bool.eq_iff_iff]
    simp only [inRange, Bool.and_eq_true, Bool.or_eq_true, decide_eq_true_eq,
      show '0'.toNat = 48 from rfl, show '1'.toNat = 49 from rfl,
      show '2'.toNat = 50 from rfl, show '3'.toNat = 51 from rfl,
      show '5'.toNat = 53 from rfl, show '9'.toNat = 57 from rfl, and_assoc]
    constructor <;> intro h <;> obtain ⟨hc, h⟩ := h <;> exact ⟨hc, by omega⟩
  · rfl

/-- **C9 counterexample.** The claim's "strict two-digit HH:MM" is not what
the code enforces: `"9:30"` has a one-digit hour, is rejected by the spec's
stated rule, yet `parse_schedule` accepts it (the regex hour group
`[0-1]?[0-9]` makes the first digit optional). -/
theorem C9_counterexample_one_digit_hour :
    (parse_schedule "daily".data "9:30".data none none).1 = true
    ∧ specStrictHHMM "9:30".data = false :=
  ⟨by decide, by decide⟩

/-- **C9 (amended).** A time string is accepted iff — after tolerating one
trailing newline, an artifact of `re.match`'s `$` — it is `H:MM` or `HH:MM`
with a one- or two-digit hour of value 0–23 and a strict two-digit minute
00–59; acceptance of the whole config implies the time passed that rule;
and every rejection returns no schedule together with a structured reason
string (and the function never raises, being total by construction). -/
theorem C9_time_validation_amended :
    (∀ t : List Char, (parse_schedule "daily".data t none none).1 = amendedTimeOk t)
    ∧ (∀ (f t : List Char) (d : Option (List Char)) (dt : Option Int),
        (parse_schedule f t d dt).1 = true → amendedTimeOk t = true)
    ∧ ∀ (f t : List Char) (d : Option (List Char)) (dt : Option Int),
        (parse_schedule f t d dt).1 = false →
        (parse_schedule f t d dt).2.1 = none
        ∧ (parse_schedule f t d dt).2.2.isSome = true := by
  refine ⟨?_, ?_, ?_⟩
  · intro t
    rw [← matchesTimePattern_eq_amendedTimeOk]
    unfold parse_schedule
    cases hm : matchesTimePattern t
    · simp [hm]
    · simp only [hm]
      rfl
  · intro f t d dt hok
    rw [← matchesTimePattern_eq_amendedTimeOk]
    by_contra hm
    have hm' : matchesTimePattern t = false := by
      cases h : matchesTimePattern t
      · rfl
      · exact absurd h hm
    unfold parse_schedule at hok
    simp [hm'] at hok
  · intro f t d dt hfail
    simp only [parse_schedule] at hfail ⊢
    split_ifs at hfail ⊢ <;> simp_all

theorem C9_time_validation_amended_witness :
    (parse_schedule "daily".data "garbage".data none none).2.1 = none
    ∧ (parse_schedule "daily".data "garbage".data none none).2.2.isSome = true :=
  C9_time_validation_amended.2.2 "daily".data "garbage".data none none (by decide)
